import Mathlib

/-!
Verification of the RBN logger core (`rbn.py`): the line parser for the fixed
spot grammar `RGX`, the band classification table `BANDS`, the generic filter
matcher `matches` (here `pyMatches`), the range-filter mini-language `parse_range_filter`, and the
per-record filter dispatch of `Record.match` / `main`.

Numeric values (Python `float`/`int`) are embedded as `ℚ`/`ℤ`: every literal the
program handles is a finite decimal, and on those the comparisons performed by
the filters coincide with rational comparisons.  Fallible operations return
`Option`/`Except` (`none`/`.error` models a raised exception).
-/

/-- Python `\s` on the ASCII range (the feed is ASCII). -/
def pyIsSpace (c : Char) : Bool :=
  c == ' ' || c == '\t' || c == '\n' || c == '\r' || c == '\x0b' || c == '\x0c'

/-- Negation of `pyIsSpace`, Python `\S`. -/
def pyNonSpace (c : Char) : Bool := !(pyIsSpace c)

/-- Python `.` (any character except a newline). -/
def pyDot (c : Char) : Bool := c != '\n'

/-- Value of a digit string, `int("...")` on all-digit input. -/
def digitsToNat (ds : List Char) : Nat :=
  ds.foldl (fun a c => 10 * a + (c.toNat - '0'.toNat)) 0

/-- Strip the modelled whitespace from both ends of a character list. -/
def stripChars (cs : List Char) : List Char :=
  ((cs.dropWhile pyIsSpace).reverse.dropWhile pyIsSpace).reverse

/-- Python `str.strip()` on the modelled whitespace set. -/
def pyStrip (s : String) : String := String.mk (stripChars s.data)

/-- Split an optional leading sign character, returning the sign as `1`/`-1`. -/
def pySign (cs : List Char) : ℤ × List Char :=
  match cs with
  | [] => (1, [])
  | c :: r => if c == '+' then (1, r) else if c == '-' then (-1, r) else (1, c :: r)

/-- Exponent digits (with optional sign) of a Python float literal. -/
def pyFloatExpDigits (cs : List Char) : Option ℤ :=
  let p := pySign cs
  let ds := p.2.takeWhile Char.isDigit
  if ds.isEmpty then none
  else if (p.2.dropWhile Char.isDigit).isEmpty then some (p.1 * (digitsToNat ds : ℤ))
  else none

/-- Exponent part of a Python float literal; `[]` means exponent `0`. -/
def pyFloatExp (cs : List Char) : Option ℤ :=
  match cs with
  | [] => some 0
  | c :: r => if c == 'e' || c == 'E' then pyFloatExpDigits r else none

/-- Split an optional fractional part `.ddd` off the front of `rest`. -/
def fracParts (rest : List Char) : List Char × List Char :=
  match rest with
  | [] => ([], [])
  | c :: r =>
      if c == '.' then (r.takeWhile Char.isDigit, r.dropWhile Char.isDigit)
      else ([], c :: r)

/-- The exact rational value `sgn * ip.fp * 10^e`. -/
def pyFloatVal (sgn : ℤ) (ip fp : List Char) (e : ℤ) : ℚ :=
  match e with
  | Int.ofNat k =>
      mkRat (sgn * Int.ofNat (digitsToNat ip * 10 ^ fp.length + digitsToNat fp)
        * Int.ofNat (10 ^ k)) (10 ^ fp.length)
  | Int.negSucc k =>
      mkRat (sgn * Int.ofNat (digitsToNat ip * 10 ^ fp.length + digitsToNat fp))
        (10 ^ fp.length * 10 ^ (k + 1))

/-- Mantissa/exponent assembly: fails when there is no digit at all or the
exponent part is malformed. -/
def pyFloatOfParts (ip : List Char) (fr : List Char × List Char) (sgn : ℤ) : Option ℚ :=
  if ip.isEmpty && fr.1.isEmpty then none
  else
    match pyFloatExp fr.2 with
    | none => none
    | some e => some (pyFloatVal sgn ip fr.1 e)

def pyFloatCore (cs : List Char) : Option ℚ :=
  pyFloatOfParts ((pySign cs).2.takeWhile Char.isDigit)
    (fracParts ((pySign cs).2.dropWhile Char.isDigit)) (pySign cs).1

/-- Python `float(s)` on finite decimal literals: surrounding whitespace is
stripped, then an optional sign, an integer part and/or a fractional part, and
an optional exponent.  The exact value `sign * ip.fp * 10^e` is assembled with
integer arithmetic and a single `mkRat` so that it evaluates by kernel
reduction.  (`inf`/`nan` and digit underscores are outside the behaviour the
program relies on and are not modelled.) -/
def pyFloat (s : String) : Option ℚ := pyFloatCore (stripChars s.data)

/-- Python `int(s)` on decimal literals: stripped, optional sign, digits. -/
def pyInt (s : String) : Option ℤ :=
  if (pySign (stripChars s.data)).2.isEmpty then none
  else if (pySign (stripChars s.data)).2.all Char.isDigit then
    some ((pySign (stripChars s.data)).1 * (digitsToNat (pySign (stripChars s.data)).2 : ℤ))
  else none

/-! ### Backtracking combinators for the fixed patterns of `rbn.py`

Every repetition in `RGX` and in the range regex is over a single-character
class, so a repetition amounts to choosing how many characters to consume.
Greedy repetitions try the longest candidate first, lazy ones the shortest —
the preference order of Python's backtracking engine. -/

/-- Try `f n, f (n-1), ..., f 0`, first success wins (greedy `*`). -/
def tryDesc {α : Type} (f : Nat → Option α) : Nat → Option α
  | 0 => f 0
  | n + 1 => (f (n + 1)).orElse fun _ => tryDesc f n

/-- Try `f n, f (n-1), ..., f 1`, first success wins (greedy `+`). -/
def tryDescPos {α : Type} (f : Nat → Option α) : Nat → Option α
  | 0 => none
  | n + 1 => (f (n + 1)).orElse fun _ => tryDescPos f n

/-- Try `f i, f (i+1), ..., f (i+fuel)`, first success wins (lazy `*?`). -/
def tryAsc {α : Type} (f : Nat → Option α) : Nat → Nat → Option α
  | i, 0 => f i
  | i, fuel + 1 => (f i).orElse fun _ => tryAsc f (i + 1) fuel

/-- Length of the longest prefix satisfying `p`. -/
def countWhile (p : Char → Bool) (cs : List Char) : Nat := (cs.takeWhile p).length

/-- Greedy `p*`: consume up to `countWhile p cs` characters, longest first. -/
def starGreedy {α : Type} (p : Char → Bool) (cs : List Char)
    (k : List Char → List Char → Option α) : Option α :=
  tryDesc (fun n => k (cs.take n) (cs.drop n)) (countWhile p cs)

/-- Greedy `p+`: like `starGreedy` but at least one character. -/
def plusGreedy {α : Type} (p : Char → Bool) (cs : List Char)
    (k : List Char → List Char → Option α) : Option α :=
  tryDescPos (fun n => k (cs.take n) (cs.drop n)) (countWhile p cs)

/-- Lazy `p*?`: consume as few characters as possible, shortest first. -/
def starLazy {α : Type} (p : Char → Bool) (cs : List Char)
    (k : List Char → List Char → Option α) : Option α :=
  tryAsc (fun n => k (cs.take n) (cs.drop n)) 0 (countWhile p cs)

/-- Literal string. -/
def litK {α : Type} (lit : List Char) (cs : List Char) (k : List Char → Option α) : Option α :=
  if lit.isPrefixOf cs then k (cs.drop lit.length) else none

/-- Exactly one character of class `p`. -/
def oneK {α : Type} (p : Char → Bool) (cs : List Char)
    (k : Char → List Char → Option α) : Option α :=
  match cs with
  | [] => none
  | c :: rest => if p c then k c rest else none

/-- The ten capture groups of `RGX`, as the matched substrings. -/
structure RawGroups where
  g1 : String
  g2 : String
  g3 : String
  g4 : String
  g5 : String
  g6 : String
  g7 : String
  g8 : String
  g9 : String
  g10 : String
deriving DecidableEq

/-- `re.match(RGX, line)` for
`RGX = ^DX de (.*?):\s*(\d+\.\d+)\s*(\S+)\s+(\S+)\s+(\d+) dB\s+(\d+)\s+(\S+)\s+(\S.*\S)\s+(\d+)(\d\d)Z\s*$`,
returning the captured groups on success.  The combinators explore candidate
splits in the same preference order as Python's backtracking engine, so the
first success (hence the captures) agrees with `re.match`. -/
def rgxMatch (line : String) : Option RawGroups :=
  litK "DX de ".data line.data fun cs =>
  starLazy pyDot cs fun s1 cs =>
  litK [':'] cs fun cs =>
  starGreedy pyIsSpace cs fun _ cs =>
  plusGreedy Char.isDigit cs fun d1 cs =>
  litK ['.'] cs fun cs =>
  plusGreedy Char.isDigit cs fun d2 cs =>
  starGreedy pyIsSpace cs fun _ cs =>
  plusGreedy pyNonSpace cs fun s3 cs =>
  plusGreedy pyIsSpace cs fun _ cs =>
  plusGreedy pyNonSpace cs fun s4 cs =>
  plusGreedy pyIsSpace cs fun _ cs =>
  plusGreedy Char.isDigit cs fun s5 cs =>
  litK " dB".data cs fun cs =>
  plusGreedy pyIsSpace cs fun _ cs =>
  plusGreedy Char.isDigit cs fun s6 cs =>
  plusGreedy pyIsSpace cs fun _ cs =>
  plusGreedy pyNonSpace cs fun s7 cs =>
  plusGreedy pyIsSpace cs fun _ cs =>
  oneK pyNonSpace cs fun c0 cs =>
  starGreedy pyDot cs fun mid cs =>
  oneK pyNonSpace cs fun cz cs =>
  plusGreedy pyIsSpace cs fun _ cs =>
  plusGreedy Char.isDigit cs fun s9 cs =>
  oneK Char.isDigit cs fun da cs =>
  oneK Char.isDigit cs fun db cs =>
  litK ['Z'] cs fun cs =>
  starGreedy pyIsSpace cs fun _ cs =>
  if cs.isEmpty then
    some ⟨String.mk s1, String.mk (d1 ++ '.' :: d2), String.mk s3, String.mk s4,
          String.mk s5, String.mk s6, String.mk s7, String.mk (c0 :: (mid ++ [cz])),
          String.mk s9, String.mk [da, db]⟩
  else none

/-- A parsed RBN spot line (`class Record`).  `signal_strength` and the numeric
speed component are Python ints embedded in `ℚ` because the filters compare
them against floats. -/
structure Record where
  station_dx : String
  frequency : ℚ
  station_de : String
  mode : String
  signal_strength : ℚ
  speed : ℚ × String
  record_type : String
  time : ℤ × ℤ
deriving DecidableEq

/-- `Record.parse`: match `RGX` against the line and convert the numeric
groups; any failure (no match — the conversions cannot fail on `\d`-groups)
is the `ValueError` of the Python code, i.e. `none`. -/
def Record.parse (line : String) : Option Record :=
  (rgxMatch line).bind fun g =>
  (pyFloat g.g2).bind fun freq =>
  (pyInt g.g5).bind fun sig =>
  (pyInt g.g6).bind fun spd =>
  (pyInt g.g9).bind fun hh =>
  (pyInt g.g10).map fun mm =>
  ⟨g.g1, freq, g.g3, g.g4, (sig : ℚ), ((spd : ℚ), g.g7), g.g8, (hh, mm)⟩

/-- The band table `BANDS`: `(band_label, upper_bound_kHz)`, ascending bounds.
The fractional labels 1.25, 0.7, 0.33, 0.23 of the source are written as
`mkRat` values (their exact rational values) so they evaluate by reduction. -/
def BANDS : List (ℚ × ℚ) :=
  [(160, 2500), (80, 5000), (60, 6000), (40, 8500), (30, 12000), (20, 16000),
   (17, 19500), (15, 22500), (12, 26500), (10, 40000), (6, 65000), (4, 120000),
   (2, 160000), (mkRat 5 4, 300000), (mkRat 7 10, 600000), (mkRat 33 100, 1000000),
   (mkRat 23 100, 1400000)]

/-- The loop of `Record.band`: first entry whose bound strictly exceeds `f`. -/
def bandGo : List (ℚ × ℚ) → ℚ → Option ℚ
  | [], _ => none
  | (b, fr) :: t, f => if f < fr then some b else bandGo t f

/-- `Record.band()`. -/
def Record.band (r : Record) : Option ℚ := bandGo BANDS r.frequency

/-! ### User-supplied filter patterns (`re.match` in `matches`)

The `dx`/`de` filters are arbitrary user regexes applied with `re.match`, i.e.
anchored at the start of the value and allowed to match any prefix.  They are
embedded through Mathlib's `RegularExpression`: a pattern string is parsed into
a `RegularExpression Char` (literal characters with the postfix operators
`*`, `+`, `?`; patterns outside this fragment are rejected as unsupported), and
`re.match` succeeds iff some prefix of the value is in the expression's
language, decided executably by `rmatch`. -/

/-- Python regex metacharacters: a pattern containing these (other than as the
handled postfix operators) is outside the modelled fragment. -/
def rxMeta (c : Char) : Bool :=
  c == '.' || c == '^' || c == '$' || c == '*' || c == '+' || c == '?' ||
  c == '\x7b' || c == '\x7d' || c == '[' || c == ']' || c == '\\' || c == '|' ||
  c == '(' || c == ')'

/-- A single literal-character atom. -/
def rxAtom (c : Char) : Option (RegularExpression Char) :=
  if rxMeta c then none else some (RegularExpression.char c)

/-- Parse a pattern: a sequence of atoms, each optionally followed by
`*`, `+` or `?`. -/
def parseRxGo : List Char → RegularExpression Char → Option (RegularExpression Char)
  | [], acc => some acc
  | c :: rest, acc =>
    (rxAtom c).bind fun a =>
      match rest with
      | [] => some (RegularExpression.comp acc a)
      | d :: r2 =>
        if d == '*' then
          parseRxGo r2 (RegularExpression.comp acc (RegularExpression.star a))
        else if d == '+' then
          parseRxGo r2
            (RegularExpression.comp acc (RegularExpression.comp a (RegularExpression.star a)))
        else if d == '?' then
          parseRxGo r2
            (RegularExpression.comp acc (RegularExpression.plus a RegularExpression.epsilon))
        else
          parseRxGo (d :: r2) (RegularExpression.comp acc a)

/-- Parse a whole pattern string. -/
def parseRx (s : String) : Option (RegularExpression Char) :=
  parseRxGo s.data RegularExpression.epsilon

/-- `re.match(pat, s) is not None`: the pattern, anchored at the start, matches
some prefix of `s` (`false` also for patterns outside the modelled fragment). -/
def reMatchStart (pat s : String) : Bool :=
  match parseRx pat with
  | none => false
  | some rx => (List.range (s.data.length + 1)).any fun n => rx.rmatch (s.data.take n)

/-! ### The generic filter matcher (`matches`, named `pyMatches` here since `matches` is a reserved word) -/

/-- A filter specification, the duck-typed `key` argument of `matches`:
`None`, a list of alternatives, a `(sub-spec, invert)` pair, a callable
predicate, or a plain value (which, for `regex=True`, is a pattern string). -/
inductive FSpec (α : Type) where
  | snone : FSpec α
  | slist : List (FSpec α) → FSpec α
  | stup : FSpec α → Bool → FSpec α
  | sfun : (α → Bool) → FSpec α
  | sval : α → FSpec α

mutual

/-- `matches(key, val, regex)`.  `toStr` is Python's `str` coercion for `α`,
used only on the regex path (the program only requests `regex=True` on string
fields, so for other `α` it is passed as a dummy and never reached). -/
def pyMatches {α : Type} [DecidableEq α] (toStr : α → String) :
    FSpec α → α → Bool → Bool
  | FSpec.snone, _, _ => true
  | FSpec.slist ss, v, rg => pyMatchesAny toStr ss v rg
  | FSpec.stup s inv, v, rg =>
      if inv then !(pyMatches toStr s v rg) else pyMatches toStr s v rg
  | FSpec.sfun f, v, _ => f v
  | FSpec.sval k, v, rg =>
      if rg then reMatchStart (toStr k) (toStr v) else decide (k = v)

/-- The `for subkey in key` loop of the list case: true iff some element
matches, short-circuiting on the first success. -/
def pyMatchesAny {α : Type} [DecidableEq α] (toStr : α → String) :
    List (FSpec α) → α → Bool → Bool
  | [], _, _ => false
  | s :: t, v, rg => pyMatches toStr s v rg || pyMatchesAny toStr t v rg

end

/-! ### Per-record filter dispatch (`Record.match`) -/

/-- The eight named filter parameters of `Record.match`; `FSpec.snone` is the
Python default `None` (no constraint). -/
structure Filters where
  dx : FSpec String
  de : FSpec String
  band : FSpec (Option ℚ)
  frequency : FSpec ℚ
  mode : FSpec String
  signal_strength : FSpec ℚ
  speed : FSpec (ℚ × String)
  record_type : FSpec String

/-- All filters absent. -/
def noFilters : Filters :=
  ⟨FSpec.snone, FSpec.snone, FSpec.snone, FSpec.snone, FSpec.snone, FSpec.snone,
   FSpec.snone, FSpec.snone⟩

/-- `Record.match` (named `matchFilters` because `match` is a Lean keyword):
each supplied filter is applied to its fixed field — `dx`/`de` with
`regex=True` against the station strings, the rest with `regex=False` — and
the results are conjoined.  The `str` coercion argument is only consulted on
the regex path, hence the dummies on non-string fields. -/
def Record.matchFilters (r : Record) (f : Filters) : Bool :=
  pyMatches (fun s => s) f.dx r.station_dx true &&
  pyMatches (fun s => s) f.de r.station_de true &&
  pyMatches (fun _ => "") f.band r.band false &&
  pyMatches (fun _ => "") f.frequency r.frequency false &&
  pyMatches (fun s => s) f.mode r.mode false &&
  pyMatches (fun _ => "") f.signal_strength r.signal_strength false &&
  pyMatches (fun _ => "") f.speed r.speed false &&
  pyMatches (fun s => s) f.record_type r.record_type false

/-! ### The range-filter mini-language (`parse_range_filter`)

A compiled predicate has type `ℚ → Option Bool`: the Python lambdas convert
their captured operand with `float(...)` only when *applied*, so an
unparseable operand makes every application raise `ValueError` (`none`),
while compilation itself succeeds. -/

/-- `String.mk (s.data.take n)`, Python `s[0:n]` (kernel-reducible). -/
def pyTake (s : String) (n : Nat) : String := String.mk (s.data.take n)

/-- `String.mk (s.data.drop n)`, Python `s[n:]` (kernel-reducible). -/
def pyDrop (s : String) (n : Nat) : String := String.mk (s.data.drop n)

/-- Mandatory fractional part `(?:\.\d+)`. -/
def fracMan {α : Type} (cs : List Char) (k : List Char → List Char → Option α) : Option α :=
  litK ['.'] cs fun cs2 => plusGreedy Char.isDigit cs2 fun ds cs3 => k ('.' :: ds) cs3

/-- Optional (greedy) fractional part `(?:\.\d+)?`: with-fraction is tried
first, as the backtracking engine does. -/
def fracOpt {α : Type} (cs : List Char) (k : List Char → List Char → Option α) : Option α :=
  (fracMan cs k).orElse fun _ => k [] cs

/-- `re.match(r'(\d+(?:\.\d+)?)-(\d+(?:\.\d+))', arg)`, returning the two
captured groups.  Note the second group's fractional part is *not* optional
(the source regex lacks the `?`), and the match is not anchored at the end, so
trailing text is ignored. -/
def rangeRgx (s : String) : Option (String × String) :=
  plusGreedy Char.isDigit s.data fun a cs =>
  fracOpt cs fun fa cs =>
  litK ['-'] cs fun cs =>
  plusGreedy Char.isDigit cs fun b cs =>
  fracMan cs fun fb _ =>
  some (String.mk (a ++ fa), String.mk (b ++ fb))


/-- `parse_range_filter(arg)`: the operator prefixes are tried in source
order (`<=`, `>=`, `/=`, `=`, `<`, `>`), then the `X-Y` regex; anything else
raises `ValueError` (`none`).  Each returned lambda converts its operand with
`float` at application time, exactly as the Python closures do. -/
def parse_range_filter (arg : String) : Option (ℚ → Option Bool) :=
  if pyTake arg 2 = "<=" then
    some fun x => (pyFloat (pyStrip (pyDrop arg 2))).map fun v => decide (x ≤ v)
  else if pyTake arg 2 = ">=" then
    some fun x => (pyFloat (pyStrip (pyDrop arg 2))).map fun v => decide (v ≤ x)
  else if pyTake arg 2 = "/=" then
    some fun x => (pyFloat (pyStrip (pyDrop arg 2))).map fun v => decide (x ≠ v)
  else if pyTake arg 1 = "=" then
    some fun x => (pyFloat (pyStrip (pyDrop arg 1))).map fun v => decide (x = v)
  else if pyTake arg 1 = "<" then
    some fun x => (pyFloat (pyStrip (pyDrop arg 1))).map fun v => decide (x < v)
  else if pyTake arg 1 = ">" then
    some fun x => (pyFloat (pyStrip (pyDrop arg 1))).map fun v => decide (v < x)
  else
    match rangeRgx arg with
    | some g =>
        some fun x =>
          (pyFloat g.1).bind fun a => (pyFloat g.2).map fun b => decide (a ≤ x ∧ x ≤ b)
    | none => none

/-! ### The filter construction and keyword dispatch of `main`

`main` builds a `dict` of keyword arguments and calls `rec.match(**filters)`.
Keyword binding is modelled explicitly because `main` stores the compiled
signal-strength filter under the key `'signal'`, which is *not* a parameter of
`Record.match` (the parameter is named `signal_strength`), so the call raises
`TypeError`.  `Except String` carries the exception name. -/

/-- The parameter names of `Record.match` that `**filters` may bind. -/
def recordMatchParams : List String :=
  ["dx", "de", "band", "frequency", "mode", "signal_strength", "speed", "record_type"]

/-- A value stored in the `filters` dict of `main`. -/
inductive KwVal where
  | kstr : FSpec String → KwVal
  | kband : FSpec (Option ℚ) → KwVal
  | krange : List (ℚ → Option Bool) → KwVal
  | kspeed : List (ℚ → Option Bool) → KwVal

/-- `matches` over a list of compiled range predicates (the list-of-callables
case): OR with short-circuit, a raising predicate propagates (`none`). -/
def applyRanges : List (ℚ → Option Bool) → ℚ → Option Bool
  | [], _ => some false
  | p :: t, x => (p x).bind fun b => if b then some true else applyRanges t x

/-- Python `s.split(',')` (kernel-reducible). -/
def splitCommaGo : List Char → List Char → List String
  | [], acc => [String.mk acc.reverse]
  | c :: r, acc =>
      if c == ',' then String.mk acc.reverse :: splitCommaGo r []
      else splitCommaGo r (c :: acc)

/-- Python `s.split(',')`. -/
def splitComma (s : String) : List String := splitCommaGo s.data []

/-- Leading `~` inversion marker of the non-range filter arguments. -/
def splitInvert (s : String) : Bool × String :=
  if pyTake s 1 = "~" then (true, pyDrop s 1) else (false, s)

/-- The command-line filter arguments accepted by `main` (absent = flag not
given). -/
structure Config where
  de : Option String
  dx : Option String
  band : Option String
  mode : Option String
  record_type : Option String
  frequency : Option String
  speed : Option String
  signal : Option String

/-- The filter-dict construction of `main` (lines 202-226), in insertion
order.  `de`/`dx` are always present (possibly `None`); `band` splits on
commas and converts with `int`; `mode`/`record_type` split on commas;
`frequency`/`speed`/`signal` compile each comma-separated alternative with
`parse_range_filter`; the `speed` entry wraps its predicates to apply to the
numeric component `x[0]`.  The signal filter is stored under key `"signal"`.
A conversion or compilation failure is the start-up `ValueError`. -/
def buildFilters (c : Config) : Except String (List (String × KwVal)) := do
  let kstrOf : Option String → KwVal := fun o =>
    match o with
    | none => KwVal.kstr FSpec.snone
    | some s => KwVal.kstr (FSpec.sval s)
  let base := [("de", kstrOf c.de), ("dx", kstrOf c.dx)]
  let base ← match c.band with
    | none => pure base
    | some s =>
        let p := splitInvert s
        match (splitComma p.2).mapM pyInt with
        | none => Except.error "ValueError"
        | some l =>
            pure (base ++
              [("band", KwVal.kband (FSpec.stup
                (FSpec.slist (l.map fun z => FSpec.sval (some ((z : ℚ))))) p.1))])
  let base ← match c.mode with
    | none => pure base
    | some s =>
        let p := splitInvert s
        pure (base ++
          [("mode", KwVal.kstr (FSpec.stup
            (FSpec.slist ((splitComma p.2).map FSpec.sval)) p.1))])
  let base ← match c.record_type with
    | none => pure base
    | some s =>
        let p := splitInvert s
        pure (base ++
          [("record_type", KwVal.kstr (FSpec.stup
            (FSpec.slist ((splitComma p.2).map FSpec.sval)) p.1))])
  let base ← match c.frequency with
    | none => pure base
    | some s =>
        match (splitComma s).mapM parse_range_filter with
        | none => Except.error "ValueError"
        | some ps => pure (base ++ [("frequency", KwVal.krange ps)])
  let base ← match c.speed with
    | none => pure base
    | some s =>
        match (splitComma s).mapM parse_range_filter with
        | none => Except.error "ValueError"
        | some ps => pure (base ++ [("speed", KwVal.kspeed ps)])
  let base ← match c.signal with
    | none => pure base
    | some s =>
        match (splitComma s).mapM parse_range_filter with
        | none => Except.error "ValueError"
        | some ps => pure (base ++ [("signal", KwVal.krange ps)])
  pure base

/-- Look a key up in the kwargs list (keys are unique by construction). -/
def lookupKw (kw : List (String × KwVal)) (name : String) : Option KwVal :=
  (kw.find? fun p => p.1 == name).map fun p => p.2

/-- Evaluate a string-field filter (`dx`, `de`, `mode`, `record_type`). -/
def evalStrFilter (v : Option KwVal) (x : String) (rg : Bool) : Except String Bool :=
  match v with
  | none => Except.ok true
  | some (KwVal.kstr s) => Except.ok (pyMatches (fun t => t) s x rg)
  | some _ => Except.error "TypeError"

/-- Evaluate the band filter. -/
def evalBandFilter (v : Option KwVal) (x : Option ℚ) : Except String Bool :=
  match v with
  | none => Except.ok true
  | some (KwVal.kband s) => Except.ok (pyMatches (fun _ => "") s x false)
  | some _ => Except.error "TypeError"

/-- Evaluate a numeric range filter (`frequency`, `signal_strength`): a
predicate raising `ValueError` mid-stream propagates. -/
def evalRangeFilter (v : Option KwVal) (x : ℚ) : Except String Bool :=
  match v with
  | none => Except.ok true
  | some (KwVal.krange ps) =>
      match applyRanges ps x with
      | none => Except.error "ValueError"
      | some b => Except.ok b
  | some _ => Except.error "TypeError"

/-- Evaluate the speed filter: `lambda x: matches(speed_filters, x[0])`. -/
def evalSpeedFilter (v : Option KwVal) (x : ℚ × String) : Except String Bool :=
  match v with
  | none => Except.ok true
  | some (KwVal.kspeed ps) =>
      match applyRanges ps x.1 with
      | none => Except.error "ValueError"
      | some b => Except.ok b
  | some _ => Except.error "TypeError"

/-- `rec.match(**filters)`: Python first binds the keyword arguments — a key
that is not a parameter of `Record.match` raises `TypeError` before the body
runs — then evaluates the filter list in the fixed field order with
early-false exit. -/
def Record.matchKw (r : Record) (kw : List (String × KwVal)) : Except String Bool :=
  if kw.all (fun p => recordMatchParams.contains p.1) then
    (evalStrFilter (lookupKw kw "dx") r.station_dx true).bind fun b =>
    if !b then Except.ok false else
    (evalStrFilter (lookupKw kw "de") r.station_de true).bind fun b =>
    if !b then Except.ok false else
    (evalBandFilter (lookupKw kw "band") r.band).bind fun b =>
    if !b then Except.ok false else
    (evalRangeFilter (lookupKw kw "frequency") r.frequency).bind fun b =>
    if !b then Except.ok false else
    (evalStrFilter (lookupKw kw "mode") r.mode false).bind fun b =>
    if !b then Except.ok false else
    (evalRangeFilter (lookupKw kw "signal_strength") r.signal_strength).bind fun b =>
    if !b then Except.ok false else
    (evalSpeedFilter (lookupKw kw "speed") r.speed).bind fun b =>
    if !b then Except.ok false else
    (evalStrFilter (lookupKw kw "record_type") r.record_type false).map fun b => b
  else
    Except.error "TypeError"

/-! ### Inversion lemmas for the backtracking combinators -/

theorem tryDesc_eq_some {α : Type} {f : Nat → Option α} {a : α} :
    ∀ {n : Nat}, tryDesc f n = some a → ∃ m, m ≤ n ∧ f m = some a := by
  intro n
  induction n with
  | zero => intro h; exact ⟨0, Nat.le_refl 0, h⟩
  | succ k ih =>
    intro h
    simp only [tryDesc] at h
    cases hf : f (k + 1) with
    | none =>
        rw [hf] at h
        obtain ⟨m, hm, hfm⟩ := ih h
        exact ⟨m, Nat.le_succ_of_le hm, hfm⟩
    | some b =>
        rw [hf] at h
        exact ⟨k + 1, Nat.le_refl _, hf.trans h⟩

theorem tryDescPos_eq_some {α : Type} {f : Nat → Option α} {a : α} :
    ∀ {n : Nat}, tryDescPos f n = some a → ∃ m, 1 ≤ m ∧ m ≤ n ∧ f m = some a := by
  intro n
  induction n with
  | zero => intro h; exact absurd h (by simp [tryDescPos])
  | succ k ih =>
    intro h
    simp only [tryDescPos] at h
    cases hf : f (k + 1) with
    | none =>
        rw [hf] at h
        obtain ⟨m, h1, hm, hfm⟩ := ih h
        exact ⟨m, h1, Nat.le_succ_of_le hm, hfm⟩
    | some b =>
        rw [hf] at h
        exact ⟨k + 1, Nat.succ_le_succ (Nat.zero_le k), Nat.le_refl _, hf.trans h⟩

theorem tryAsc_eq_some {α : Type} {f : Nat → Option α} {a : α} :
    ∀ {fuel i : Nat}, tryAsc f i fuel = some a → ∃ m, f m = some a := by
  intro fuel
  induction fuel with
  | zero => intro i h; exact ⟨i, h⟩
  | succ k ih =>
    intro i h
    simp only [tryAsc] at h
    cases hf : f i with
    | none => rw [hf] at h; exact ih h
    | some b => rw [hf] at h; exact ⟨i, hf.trans h⟩

theorem take_all_of_le_countWhile {p : Char → Bool} :
    ∀ (cs : List Char) (n : Nat), n ≤ countWhile p cs → (cs.take n).all p = true := by
  intro cs
  induction cs with
  | nil => intro n _; simp
  | cons c t ih =>
    intro n hn
    cases n with
    | zero => simp
    | succ m =>
      simp only [countWhile, List.takeWhile_cons] at hn
      by_cases hc : p c = true
      · rw [if_pos hc] at hn
        simp only [List.length_cons] at hn
        rw [List.take_succ_cons, List.all_cons, hc, Bool.true_and]
        exact ih m (Nat.le_of_succ_le_succ hn)
      · rw [if_neg hc] at hn
        simp at hn

theorem countWhile_nil (p : Char → Bool) : countWhile p [] = 0 := rfl

theorem starGreedy_eq_some {α : Type} {p : Char → Bool} {cs : List Char}
    {k : List Char → List Char → Option α} {a : α} (h : starGreedy p cs k = some a) :
    ∃ n, k (cs.take n) (cs.drop n) = some a := by
  obtain ⟨m, _, hm⟩ := tryDesc_eq_some h
  exact ⟨m, hm⟩

theorem starLazy_eq_some {α : Type} {p : Char → Bool} {cs : List Char}
    {k : List Char → List Char → Option α} {a : α} (h : starLazy p cs k = some a) :
    ∃ n, k (cs.take n) (cs.drop n) = some a := by
  obtain ⟨m, hm⟩ := tryAsc_eq_some h
  exact ⟨m, hm⟩

theorem plusGreedy_eq_some {α : Type} {p : Char → Bool} {cs : List Char}
    {k : List Char → List Char → Option α} {a : α} (h : plusGreedy p cs k = some a) :
    ∃ n, cs.take n ≠ [] ∧ (cs.take n).all p = true ∧ k (cs.take n) (cs.drop n) = some a := by
  obtain ⟨m, h1, h2, h3⟩ := tryDescPos_eq_some h
  refine ⟨m, ?_, take_all_of_le_countWhile cs m h2, h3⟩
  cases cs with
  | nil => rw [countWhile_nil] at h2; omega
  | cons c t =>
    cases m with
    | zero => omega
    | succ i => simp [List.take_succ_cons]

theorem litK_eq_some {α : Type} {lit cs : List Char} {k : List Char → Option α} {a : α}
    (h : litK lit cs k = some a) :
    lit.isPrefixOf cs = true ∧ k (cs.drop lit.length) = some a := by
  by_cases hb : lit.isPrefixOf cs = true
  · refine ⟨hb, ?_⟩
    unfold litK at h
    rwa [if_pos hb] at h
  · unfold litK at h
    rw [if_neg hb] at h
    cases h

theorem oneK_eq_some {α : Type} {p : Char → Bool} {cs : List Char}
    {k : Char → List Char → Option α} {a : α} (h : oneK p cs k = some a) :
    ∃ c rest, cs = c :: rest ∧ p c = true ∧ k c rest = some a := by
  cases cs with
  | nil => simp [oneK] at h
  | cons c rest =>
    simp only [oneK] at h
    by_cases hc : p c = true
    · rw [if_pos hc] at h
      exact ⟨c, rest, rfl, hc, h⟩
    · rw [if_neg hc] at h
      cases h

/-! ### Digit-string facts: the numeric conversions cannot fail on `\d` groups -/

theorem digit_beq_false {c d : Char} (h : c.isDigit = true) (hd : d.isDigit = false) :
    (c == d) = false := by
  cases hbe : (c == d) with
  | false => rfl
  | true =>
    have hcd : c = d := eq_of_beq hbe
    rw [hcd, hd] at h
    cases h

theorem digit_not_space {c : Char} (h : c.isDigit = true) : pyIsSpace c = false := by
  unfold pyIsSpace
  rw [digit_beq_false h (by decide), digit_beq_false h (by decide),
      digit_beq_false h (by decide), digit_beq_false h (by decide),
      digit_beq_false h (by decide), digit_beq_false h (by decide)]
  rfl

theorem dropWhile_space_of_head_digit {c : Char} (t : List Char) (h : c.isDigit = true) :
    (c :: t).dropWhile pyIsSpace = c :: t := by
  rw [List.dropWhile_cons, digit_not_space h]
  simp

theorem pySign_of_head_digit {c : Char} (t : List Char) (h : c.isDigit = true) :
    pySign (c :: t) = (1, c :: t) := by
  simp only [pySign]
  rw [digit_beq_false h (by decide), digit_beq_false h (by decide)]
  simp

theorem all_digit_reverse {ds : List Char} (h : ds.all Char.isDigit = true) :
    ds.reverse.all Char.isDigit = true := by
  rw [List.all_eq_true] at h ⊢
  intro c hc
  exact h c (List.mem_reverse.mp hc)

theorem dropWhile_space_of_all_digit {ds : List Char} (h : ds.all Char.isDigit = true) :
    ds.dropWhile pyIsSpace = ds := by
  cases ds with
  | nil => rfl
  | cons c t =>
    rw [List.all_cons, Bool.and_eq_true] at h
    exact dropWhile_space_of_head_digit t h.1

theorem stripChars_all_digit {ds : List Char} (h : ds.all Char.isDigit = true) :
    stripChars ds = ds := by
  unfold stripChars
  rw [dropWhile_space_of_all_digit h,
      dropWhile_space_of_all_digit (all_digit_reverse h), List.reverse_reverse]

theorem pyInt_digits {ds : List Char} (h0 : ds ≠ []) (h : ds.all Char.isDigit = true) :
    pyInt (String.mk ds) = some (Int.ofNat (digitsToNat ds)) := by
  cases ds with
  | nil => exact absurd rfl h0
  | cons c t =>
    have hcd : c.isDigit = true := by
      rw [List.all_cons, Bool.and_eq_true] at h
      exact h.1
    unfold pyInt
    rw [show (String.mk (c :: t)).data = c :: t from rfl]
    rw [stripChars_all_digit h, pySign_of_head_digit t hcd]
    rw [if_neg (by simp), if_pos h]
    simp

theorem takeWhile_all_digit {ds : List Char} (h : ds.all Char.isDigit = true) :
    ds.takeWhile Char.isDigit = ds ∧ ds.dropWhile Char.isDigit = [] := by
  induction ds with
  | nil => exact ⟨rfl, rfl⟩
  | cons c t ih =>
    rw [List.all_cons, Bool.and_eq_true] at h
    obtain ⟨ih1, ih2⟩ := ih h.2
    rw [List.takeWhile_cons, List.dropWhile_cons, h.1, ih1, ih2]
    simp

theorem takeWhile_digits_before_dot {d1 : List Char} (rest : List Char)
    (h : d1.all Char.isDigit = true) :
    (d1 ++ '.' :: rest).takeWhile Char.isDigit = d1 ∧
    (d1 ++ '.' :: rest).dropWhile Char.isDigit = '.' :: rest := by
  induction d1 with
  | nil =>
    constructor
    · rw [List.nil_append, List.takeWhile_cons]
      simp
    · rw [List.nil_append, List.dropWhile_cons]
      simp
  | cons c t ih =>
    rw [List.all_cons, Bool.and_eq_true] at h
    obtain ⟨ih1, ih2⟩ := ih h.2
    rw [List.cons_append, List.takeWhile_cons, List.dropWhile_cons, h.1, ih1, ih2]
    simp

theorem dropWhile_space_freq {d1 d2 : List Char} (h1 : d1 ≠ [])
    (ha1 : d1.all Char.isDigit = true) (h2 : d2 ≠ []) (ha2 : d2.all Char.isDigit = true) :
    stripChars (d1 ++ '.' :: d2) = d1 ++ '.' :: d2 := by
  unfold stripChars
  have hhead : (d1 ++ '.' :: d2).dropWhile pyIsSpace = d1 ++ '.' :: d2 := by
    cases d1 with
    | nil => exact absurd rfl h1
    | cons c t =>
      have hcd : c.isDigit = true := by
        rw [List.all_cons, Bool.and_eq_true] at ha1
        exact ha1.1
      rw [List.cons_append, List.dropWhile_cons, digit_not_space hcd]
      simp
  have hrev : (d1 ++ '.' :: d2).reverse.dropWhile pyIsSpace = (d1 ++ '.' :: d2).reverse := by
    cases hd2 : d2.reverse with
    | nil => exact absurd (by rw [← List.reverse_reverse d2, hd2]; rfl) h2
    | cons c t =>
      have hc2 : c.isDigit = true := by
        have : c ∈ d2 := List.mem_reverse.mp (by rw [hd2]; exact List.mem_cons_self c t)
        exact (List.all_eq_true.mp ha2) c this
      have : (d1 ++ '.' :: d2).reverse = c :: (t ++ '.' :: d1.reverse) := by
        rw [List.reverse_append, List.reverse_cons]
        rw [show d2.reverse ++ ['.'] = c :: (t ++ ['.']) from by rw [hd2]; rfl]
        simp
      rw [this, List.dropWhile_cons, digit_not_space hc2]
      simp [this]
  rw [hhead, hrev, List.reverse_reverse]

theorem pyFloat_digits_dot {d1 d2 : List Char} (h1 : d1 ≠ [])
    (ha1 : d1.all Char.isDigit = true) (h2 : d2 ≠ []) (ha2 : d2.all Char.isDigit = true) :
    pyFloat (String.mk (d1 ++ '.' :: d2)) = some (pyFloatVal 1 d1 d2 0) := by
  unfold pyFloat pyFloatCore
  rw [show (String.mk (d1 ++ '.' :: d2)).data = d1 ++ '.' :: d2 from rfl]
  rw [dropWhile_space_freq h1 ha1 h2 ha2]
  have hsign : pySign (d1 ++ '.' :: d2) = (1, d1 ++ '.' :: d2) := by
    cases d1 with
    | nil => exact absurd rfl h1
    | cons c t =>
      have hcd : c.isDigit = true := by
        rw [List.all_cons, Bool.and_eq_true] at ha1
        exact ha1.1
      rw [List.cons_append]
      exact pySign_of_head_digit (t ++ '.' :: d2) hcd
  rw [hsign]
  obtain ⟨ht, hd⟩ := takeWhile_digits_before_dot d2 ha1
  rw [show (1, d1 ++ '.' :: d2).2 = d1 ++ '.' :: d2 from rfl, ht, hd]
  have hfrac : fracParts ('.' :: d2) = (d2, []) := by
    obtain ⟨ht2, hd2⟩ := takeWhile_all_digit ha2
    simp only [fracParts]
    rw [if_pos (by rfl), ht2, hd2]
  rw [hfrac]
  unfold pyFloatOfParts
  rw [if_neg (by simp [List.isEmpty_iff, h1])]
  rfl

/-- Any successful `RGX` match captures a `\d+.\d+` second group and all-digit
groups 5, 6, 9 and 10, so the numeric conversions of `Record.parse` succeed. -/
theorem rgxMatch_shape {line : String} {g : RawGroups} (h : rgxMatch line = some g) :
    (∃ d1 d2 : List Char, d1 ≠ [] ∧ d1.all Char.isDigit = true ∧ d2 ≠ [] ∧
        d2.all Char.isDigit = true ∧ g.g2 = String.mk (d1 ++ '.' :: d2)) ∧
    (∃ ds : List Char, ds ≠ [] ∧ ds.all Char.isDigit = true ∧ g.g5 = String.mk ds) ∧
    (∃ ds : List Char, ds ≠ [] ∧ ds.all Char.isDigit = true ∧ g.g6 = String.mk ds) ∧
    (∃ ds : List Char, ds ≠ [] ∧ ds.all Char.isDigit = true ∧ g.g9 = String.mk ds) ∧
    (∃ ds : List Char, ds ≠ [] ∧ ds.all Char.isDigit = true ∧ g.g10 = String.mk ds) := by
  unfold rgxMatch at h
  obtain ⟨-, h⟩ := litK_eq_some h
  obtain ⟨n1, h⟩ := starLazy_eq_some h
  obtain ⟨-, h⟩ := litK_eq_some h
  obtain ⟨n2, h⟩ := starGreedy_eq_some h
  obtain ⟨n3, hne1, hall1, h⟩ := plusGreedy_eq_some h
  obtain ⟨-, h⟩ := litK_eq_some h
  obtain ⟨n4, hne2, hall2, h⟩ := plusGreedy_eq_some h
  obtain ⟨n5, h⟩ := starGreedy_eq_some h
  obtain ⟨n6, -, -, h⟩ := plusGreedy_eq_some h
  obtain ⟨n7, -, -, h⟩ := plusGreedy_eq_some h
  obtain ⟨n8, -, -, h⟩ := plusGreedy_eq_some h
  obtain ⟨n9, -, -, h⟩ := plusGreedy_eq_some h
  obtain ⟨n10, hne5, hall5, h⟩ := plusGreedy_eq_some h
  obtain ⟨-, h⟩ := litK_eq_some h
  obtain ⟨n11, -, -, h⟩ := plusGreedy_eq_some h
  obtain ⟨n12, hne6, hall6, h⟩ := plusGreedy_eq_some h
  obtain ⟨n13, -, -, h⟩ := plusGreedy_eq_some h
  obtain ⟨n14, -, -, h⟩ := plusGreedy_eq_some h
  obtain ⟨n15, -, -, h⟩ := plusGreedy_eq_some h
  obtain ⟨c0, r0, -, -, h⟩ := oneK_eq_some h
  obtain ⟨n16, h⟩ := starGreedy_eq_some h
  obtain ⟨cz, r1, -, -, h⟩ := oneK_eq_some h
  obtain ⟨n17, -, -, h⟩ := plusGreedy_eq_some h
  obtain ⟨n18, hne9, hall9, h⟩ := plusGreedy_eq_some h
  obtain ⟨da, r2, -, hda, h⟩ := oneK_eq_some h
  obtain ⟨db, r3, -, hdb, h⟩ := oneK_eq_some h
  obtain ⟨-, h⟩ := litK_eq_some h
  obtain ⟨n19, h⟩ := starGreedy_eq_some h
  split at h
  · injection h with h
    subst h
    refine ⟨⟨_, _, hne1, hall1, hne2, hall2, rfl⟩, ⟨_, hne5, hall5, rfl⟩,
      ⟨_, hne6, hall6, rfl⟩, ⟨_, hne9, hall9, rfl⟩, ⟨[da, db], by simp, ?_, rfl⟩⟩
    simp [hda, hdb]
  · cases h

/-- On every line matched by `RGX`, all numeric conversions succeed and the
parsed `Record`'s fields are exactly the captured substrings and their numeric
conversions. -/
theorem rgxMatch_parse_success {line : String} {g : RawGroups} (h : rgxMatch line = some g) :
    ∃ freq sig spd hh mm, pyFloat g.g2 = some freq ∧ pyInt g.g5 = some sig ∧
      pyInt g.g6 = some spd ∧ pyInt g.g9 = some hh ∧ pyInt g.g10 = some mm ∧
      Record.parse line =
        some ⟨g.g1, freq, g.g3, g.g4, (sig : ℚ), ((spd : ℚ), g.g7), g.g8, (hh, mm)⟩ := by
  obtain ⟨⟨d1, d2, h1, ha1, h2, ha2, e2⟩, ⟨s5, n5, a5, e5⟩, ⟨s6, n6, a6, e6⟩,
    ⟨s9, n9, a9, e9⟩, ⟨s10, n10, a10, e10⟩⟩ := rgxMatch_shape h
  have f2 : pyFloat g.g2 = some (pyFloatVal 1 d1 d2 0) := by
    rw [e2]; exact pyFloat_digits_dot h1 ha1 h2 ha2
  have f5 : pyInt g.g5 = some (Int.ofNat (digitsToNat s5)) := by
    rw [e5]; exact pyInt_digits n5 a5
  have f6 : pyInt g.g6 = some (Int.ofNat (digitsToNat s6)) := by
    rw [e6]; exact pyInt_digits n6 a6
  have f9 : pyInt g.g9 = some (Int.ofNat (digitsToNat s9)) := by
    rw [e9]; exact pyInt_digits n9 a9
  have f10 : pyInt g.g10 = some (Int.ofNat (digitsToNat s10)) := by
    rw [e10]; exact pyInt_digits n10 a10
  refine ⟨_, _, _, _, _, f2, f5, f6, f9, f10, ?_⟩
  unfold Record.parse
  rw [h]
  simp only [Option.some_bind, f2, f5, f6, f9, f10, Option.map_some']

/-! ### Helper lemmas for the filter matcher and the band classifier -/

theorem pyMatchesAny_eq_any {α : Type} [DecidableEq α] (toStr : α → String)
    (ss : List (FSpec α)) (v : α) (rg : Bool) :
    pyMatchesAny toStr ss v rg = ss.any fun s => pyMatches toStr s v rg := by
  induction ss with
  | nil => rfl
  | cons s t ih => rw [pyMatchesAny, List.any_cons, ih]

theorem bandGo_eq_find (L : List (ℚ × ℚ)) (f : ℚ) :
    bandGo L f = (L.find? fun p => decide (f < p.2)).map Prod.fst := by
  induction L with
  | nil => rfl
  | cons p t ih =>
    obtain ⟨b, fr⟩ := p
    by_cases h : f < fr
    · rw [bandGo, if_pos h, List.find?_cons_of_pos _ (by simpa using h)]
      rfl
    · rw [bandGo, if_neg h, List.find?_cons_of_neg _ (by simpa using h), ih]

theorem bandGo_none (L : List (ℚ × ℚ)) (f : ℚ) (h : ∀ p ∈ L, p.2 ≤ f) :
    bandGo L f = none := by
  induction L with
  | nil => rfl
  | cons p t ih =>
    obtain ⟨b, fr⟩ := p
    rw [bandGo, if_neg (not_lt.mpr (h (b, fr) (List.mem_cons_self _ _)))]
    exact ih fun q hq => h q (List.mem_cons_of_mem _ hq)

theorem bandGo_isSome (L : List (ℚ × ℚ)) (f : ℚ) (h : ∃ p ∈ L, f < p.2) :
    ∃ b, bandGo L f = some b := by
  induction L with
  | nil => obtain ⟨p, hp, -⟩ := h; cases hp
  | cons p t ih =>
    obtain ⟨b, fr⟩ := p
    by_cases hf : f < fr
    · exact ⟨b, by rw [bandGo, if_pos hf]⟩
    · obtain ⟨q, hq, hfq⟩ := h
      rcases List.mem_cons.mp hq with rfl | hq2
      · exact absurd hfq hf
      · obtain ⟨b2, hb2⟩ := ih ⟨q, hq2, hfq⟩
        exact ⟨b2, by rw [bandGo, if_neg hf]; exact hb2⟩

theorem bandGo_mem (L : List (ℚ × ℚ)) (f : ℚ) (b : ℚ) (h : bandGo L f = some b) :
    b ∈ L.map Prod.fst := by
  induction L with
  | nil => cases h
  | cons p t ih =>
    obtain ⟨b1, fr⟩ := p
    rw [bandGo] at h
    by_cases hf : f < fr
    · rw [if_pos hf] at h
      injection h with h
      rw [List.map_cons, h]
      exact List.mem_cons_self _ _
    · rw [if_neg hf] at h
      exact List.mem_cons_of_mem _ (ih h)

/-- On a table whose labels strictly decrease along the list, the classifier
is antitone: a larger frequency never gets a larger label. -/
theorem bandGo_anti (L : List (ℚ × ℚ)) (hp : List.Pairwise (fun p q : ℚ × ℚ => q.1 < p.1) L)
    (f1 f2 : ℚ) (h12 : f1 ≤ f2) (b1 b2 : ℚ)
    (h1 : bandGo L f1 = some b1) (h2 : bandGo L f2 = some b2) : b2 ≤ b1 := by
  induction L with
  | nil => cases h1
  | cons p t ih =>
    obtain ⟨lab, bd⟩ := p
    rw [List.pairwise_cons] at hp
    rw [bandGo] at h1 h2
    by_cases hf1 : f1 < bd
    · rw [if_pos hf1] at h1
      injection h1 with h1
      by_cases hf2 : f2 < bd
      · rw [if_pos hf2] at h2
        injection h2 with h2
        rw [← h1, ← h2]
      · rw [if_neg hf2] at h2
        have hb2 : b2 ∈ t.map Prod.fst := bandGo_mem t f2 b2 h2
        obtain ⟨q, hq, hqb⟩ := List.mem_map.mp hb2
        rw [← h1, ← hqb]
        exact le_of_lt (hp.1 q hq)
    · have hf2 : ¬ f2 < bd := fun hlt => hf1 (lt_of_le_of_lt h12 hlt)
      rw [if_neg hf1] at h1
      rw [if_neg hf2] at h2
      exact ih hp.2 h1 h2

/-! ### Claim theorems -/

/-- The spec's example spot line. -/
def exampleLine : String :=
  "DX de SKIM-1:    14025.0  W1AW   CW   20 dB   25 WPM   CQ       1234Z"

/-- The record the example line parses to. -/
def exampleRecord : Record :=
  ⟨"SKIM-1", 14025, "W1AW", "CW", 20, (25, "WPM"), "CQ", (12, 34)⟩

/-- Claim C1: every line matching `RGX` parses to a `Record` whose fields are
the captured substrings and their numeric conversions; the example line
parses to station_dx="SKIM-1", frequency=14025.0, station_de="W1AW",
mode="CW", signal_strength=20, speed=(25,"WPM"), record_type="CQ",
time=(12,34); and every non-matching line fails to parse (no `Record` is
constructed): a line without the trailing `Z` group, with a non-numeric
frequency, or with a missing field is rejected. -/
theorem c1_parse_grammar :
    Record.parse exampleLine = some exampleRecord ∧
    rgxMatch exampleLine =
      some ⟨"SKIM-1", "14025.0", "W1AW", "CW", "20", "25", "WPM", "CQ", "12", "34"⟩ ∧
    (∀ line g, rgxMatch line = some g →
      ∃ freq sig spd hh mm, pyFloat g.g2 = some freq ∧ pyInt g.g5 = some sig ∧
        pyInt g.g6 = some spd ∧ pyInt g.g9 = some hh ∧ pyInt g.g10 = some mm ∧
        Record.parse line =
          some ⟨g.g1, freq, g.g3, g.g4, (sig : ℚ), ((spd : ℚ), g.g7), g.g8, (hh, mm)⟩) ∧
    (∀ line, rgxMatch line = none → Record.parse line = none) ∧
    Record.parse "DX de SKIM-1:    14025.0  W1AW   CW   20 dB   25 WPM   CQ       1234" = none ∧
    Record.parse "DX de SKIM-1:    1402X.0  W1AW   CW   20 dB   25 WPM   CQ       1234Z" = none ∧
    Record.parse "DX de SKIM-1:    14025.0  W1AW   CW   20 dB   25 WPM   1234Z" = none := by
  refine ⟨by decide, by decide, fun line g h => rgxMatch_parse_success h, ?_,
    by decide, by decide, by decide⟩
  intro line h
  unfold Record.parse
  rw [h]
  rfl

/-- Witness for C1: a concrete non-matching line is rejected, and the general
field/conversion statement instantiated at the example line's capture groups. -/
theorem c1_parse_grammar_witness :
    rgxMatch "hello" = none ∧ Record.parse "hello" = none ∧
    (∃ freq sig spd hh mm, pyFloat "14025.0" = some freq ∧ pyInt "20" = some sig ∧
      pyInt "25" = some spd ∧ pyInt "12" = some hh ∧ pyInt "34" = some mm ∧
      Record.parse exampleLine =
        some ⟨"SKIM-1", freq, "W1AW", "CW", (sig : ℚ), ((spd : ℚ), "WPM"), "CQ", (hh, mm)⟩) :=
  ⟨by decide, c1_parse_grammar.2.2.2.1 "hello" (by decide),
   c1_parse_grammar.2.2.1 exampleLine
     ⟨"SKIM-1", "14025.0", "W1AW", "CW", "20", "25", "WPM", "CQ", "12", "34"⟩ (by decide)⟩

/-- Claim C6: `band()` walks `BANDS` in ascending-bound order and returns the
label of the first entry whose bound strictly exceeds the record's frequency
(`List.find?` with the strictly-exceeds test), the table's bounds are strictly
ascending, and when no bound exceeds the frequency the band is absent. -/
theorem c6_band_classifier :
    (∀ r : Record, Record.band r =
      (BANDS.find? fun p => decide (r.frequency < p.2)).map Prod.fst) ∧
    List.Pairwise (fun p q : ℚ × ℚ => p.2 < q.2) BANDS ∧
    (∀ r : Record, (∀ p ∈ BANDS, p.2 ≤ r.frequency) → Record.band r = none) := by
  refine ⟨fun r => bandGo_eq_find BANDS r.frequency, by decide,
    fun r h => bandGo_none BANDS r.frequency h⟩

/-- A record whose frequency exceeds every bound in the table. -/
def highRecord : Record :=
  ⟨"SKIM-1", 2000000, "W1AW", "CW", 20, (25, "WPM"), "CQ", (12, 34)⟩

/-- Witness for C6: at 2000000 kHz every bound is exceeded and the band is
absent. -/
theorem c6_band_classifier_witness :
    (∀ p ∈ BANDS, p.2 ≤ highRecord.frequency) ∧ Record.band highRecord = none :=
  ⟨by decide, c6_band_classifier.2.2 highRecord (by decide)⟩

/-- Claim C7 as stated is false: band labels (wavelengths) *decrease* as
frequency increases, so `band(f1) ≤ band(f2)` fails for f1=1000 < f2=10000
(bands 160 and 30). -/
theorem c7_counterexample :
    (1000 : ℚ) < 10000 ∧ (10000 : ℚ) < 1400000 ∧
    bandGo BANDS 1000 = some 160 ∧ bandGo BANDS 10000 = some 30 ∧
    ¬((160 : ℚ) ≤ 30) := by decide

/-- Claim C7 amended: band classification is monotone in the *table order*
(equivalently, antitone in the numeric label): for f1 < f2 both below the top
bound, both bands are defined and band(f2) ≤ band(f1); frequencies at or above
the top bound yield no band (the "no band above top bound" half is in C6's
theorem). -/
theorem c7_band_antitone (f1 f2 : ℚ) (h12 : f1 < f2) (h2 : f2 < 1400000) :
    ∃ b1 b2, bandGo BANDS f1 = some b1 ∧ bandGo BANDS f2 = some b2 ∧ b2 ≤ b1 := by
  have hmem : ((mkRat 23 100 : ℚ), (1400000 : ℚ)) ∈ BANDS := by decide
  obtain ⟨b2, hb2⟩ := bandGo_isSome BANDS f2 ⟨_, hmem, h2⟩
  obtain ⟨b1, hb1⟩ := bandGo_isSome BANDS f1 ⟨_, hmem, lt_trans h12 h2⟩
  exact ⟨b1, b2, hb1, hb2,
    bandGo_anti BANDS (by decide) f1 f2 (le_of_lt h12) b1 b2 hb1 hb2⟩

/-- Witness for C7's amended theorem at 3000 kHz (80m) and 14025 kHz (20m). -/
theorem c7_band_antitone_witness :
    (3000 : ℚ) < 14025 ∧ (14025 : ℚ) < 1400000 ∧
    (∃ b1 b2, bandGo BANDS 3000 = some b1 ∧ bandGo BANDS 14025 = some b2 ∧ b2 ≤ b1) :=
  ⟨by decide, by decide, c7_band_antitone 3000 14025 (by decide) (by decide)⟩

/-- Claim C5: the algebra of `matches` — `None` accepts everything, a list is
an OR over its elements (false for the empty list), `(spec, True)` negates and
`(spec, False)` is transparent — for every value and either regex mode. -/
theorem c5_matches_algebra (α : Type) [DecidableEq α] (toStr : α → String)
    (v : α) (rg : Bool) :
    pyMatches toStr FSpec.snone v rg = true ∧
    (∀ ss : List (FSpec α), pyMatches toStr (FSpec.slist ss) v rg = true ↔
      ∃ s ∈ ss, pyMatches toStr s v rg = true) ∧
    (∀ s : FSpec α, pyMatches toStr (FSpec.stup s true) v rg = !(pyMatches toStr s v rg)) ∧
    (∀ s : FSpec α, pyMatches toStr (FSpec.stup s false) v rg = pyMatches toStr s v rg) := by
  refine ⟨rfl, fun ss => ?_, fun s => rfl, fun s => rfl⟩
  rw [show pyMatches toStr (FSpec.slist ss) v rg = pyMatchesAny toStr ss v rg from rfl,
      pyMatchesAny_eq_any, List.any_eq_true]

/-- Claim C2: `Record.match` is the conjunction of the eight per-field filter
applications — `dx`/`de` regex-matched against the station strings, the other
six fields matched by the general rule without regex — and a record with no
filters supplied always matches (each absent filter is the identity of the
conjunction). -/
theorem c2_record_match_conj (r : Record) (f : Filters) :
    (r.matchFilters f = true ↔
      (pyMatches (fun s => s) f.dx r.station_dx true = true ∧
       pyMatches (fun s => s) f.de r.station_de true = true ∧
       pyMatches (fun _ => "") f.band r.band false = true ∧
       pyMatches (fun _ => "") f.frequency r.frequency false = true ∧
       pyMatches (fun s => s) f.mode r.mode false = true ∧
       pyMatches (fun _ => "") f.signal_strength r.signal_strength false = true ∧
       pyMatches (fun _ => "") f.speed r.speed false = true ∧
       pyMatches (fun s => s) f.record_type r.record_type false = true)) ∧
    r.matchFilters noFilters = true := by
  constructor
  · unfold Record.matchFilters
    simp only [Bool.and_eq_true, and_assoc]
  · rfl

/-- The regular expression for the literal pattern `W1`. -/
def rxW1 : RegularExpression Char :=
  RegularExpression.comp
    (RegularExpression.comp RegularExpression.epsilon (RegularExpression.char 'W'))
    (RegularExpression.char '1')

/-- Claim C9: a `dx`/`de` filter passes iff its pattern matches a *prefix* of
the value (anchored at the start, neither full-string nor substring-anywhere):
for every pattern in the modelled fragment the match succeeds iff some prefix
of the value lies in the pattern's language; pattern `W1` matches `W1AW` but
not `KW1AW` (which merely *contains* `W1`). -/
theorem c9_regex_prefix :
    (∀ pat v : String, ∀ rx : RegularExpression Char, parseRx pat = some rx →
      (pyMatches (fun s => s) (FSpec.sval pat) v true = true ↔
        ∃ n, v.data.take n ∈ rx.matches')) ∧
    pyMatches (fun s => s) (FSpec.sval "W1") "W1AW" true = true ∧
    pyMatches (fun s => s) (FSpec.sval "W1") "KW1AW" true = false := by
  refine ⟨?_, by decide, by decide⟩
  intro pat v rx hpat
  have hre : pyMatches (fun s => s) (FSpec.sval pat) v true
      = (List.range (v.data.length + 1)).any fun n => rx.rmatch (v.data.take n) := by
    rw [show pyMatches (fun s => s) (FSpec.sval pat) v true = reMatchStart pat v from rfl]
    unfold reMatchStart
    rw [hpat]
  rw [hre]
  simp only [List.any_eq_true, List.mem_range, RegularExpression.rmatch_iff_matches']
  constructor
  · rintro ⟨n, -, hn⟩
    exact ⟨n, hn⟩
  · rintro ⟨n, hn⟩
    rcases le_or_lt n v.data.length with h | h
    · exact ⟨n, by omega, hn⟩
    · refine ⟨v.data.length, by omega, ?_⟩
      rw [List.take_length]
      rw [List.take_of_length_le (le_of_lt h)] at hn
      exact hn

/-- Witness for C9 at pattern `W1` and value `W1AW`. -/
theorem c9_regex_prefix_witness :
    parseRx "W1" = some rxW1 ∧
    (pyMatches (fun s => s) (FSpec.sval "W1") "W1AW" true = true ↔
      ∃ n, "W1AW".data.take n ∈ rxW1.matches') :=
  ⟨rfl, c9_regex_prefix.1 "W1" "W1AW" rxW1 rfl⟩

/-- Claim C3 fails on the code: in the `X-Y` regex the second literal's
fractional part is mandatory (`(\d+(?:\.\d+))`, the `?` is missing), so the
spec's own example `5-10` does not compile (ValueError), even though the
program's help text documents plain `x-y`.  With a fractional part on Y the
intended inclusive-range semantics holds. -/
theorem c3_range_hyphen_bug :
    parse_range_filter "5-10" = none ∧
    (∃ p, parse_range_filter "5-10.0" = some p ∧ p 5 = some true ∧ p 10 = some true ∧
      p (mkRat 4999 1000) = some false ∧ p (mkRat 10001 1000) = some false) :=
  ⟨rfl, ⟨_, rfl, by decide, by decide, by decide, by decide⟩⟩

/-- Claim C4: the operator forms are tried in the stated precedence order
(`<=`, `>=`, `/=`, `=`, `<`, `>`) with the stated semantics, and the example
evaluations hold. -/
theorem c4_range_operators :
    (∃ p, parse_range_filter "<=5" = some p ∧ ∀ x : ℚ, p x = some (decide (x ≤ 5))) ∧
    (∃ p, parse_range_filter ">=5" = some p ∧ ∀ x : ℚ, p x = some (decide (5 ≤ x))) ∧
    (∃ p, parse_range_filter "/=5" = some p ∧ ∀ x : ℚ, p x = some (decide (x ≠ 5))) ∧
    (∃ p, parse_range_filter "=5" = some p ∧ ∀ x : ℚ, p x = some (decide (x = 5))) ∧
    (∃ p, parse_range_filter "<5" = some p ∧ ∀ x : ℚ, p x = some (decide (x < 5))) ∧
    (∃ p, parse_range_filter ">5" = some p ∧ ∀ x : ℚ, p x = some (decide (5 < x))) ∧
    ((parse_range_filter ">=5").map (fun p => p 5) = some (some true)) ∧
    ((parse_range_filter "<5").map (fun p => p 5) = some (some false)) ∧
    ((parse_range_filter "/=5").map (fun p => p 5) = some (some false)) ∧
    ((parse_range_filter "/=5").map (fun p => p 4) = some (some true)) := by
  refine ⟨⟨_, rfl, fun x => ?_⟩, ⟨_, rfl, fun x => ?_⟩, ⟨_, rfl, fun x => ?_⟩,
    ⟨_, rfl, fun x => ?_⟩, ⟨_, rfl, fun x => ?_⟩, ⟨_, rfl, fun x => ?_⟩,
    by decide, by decide, by decide, by decide⟩
  all_goals first
    | (rw [show pyFloat (pyStrip (pyDrop "<=5" 2)) = some (5 : ℚ) from by decide]; rfl)
    | (rw [show pyFloat (pyStrip (pyDrop ">=5" 2)) = some (5 : ℚ) from by decide]; rfl)
    | (rw [show pyFloat (pyStrip (pyDrop "/=5" 2)) = some (5 : ℚ) from by decide]; rfl)
    | (rw [show pyFloat (pyStrip (pyDrop "=5" 1)) = some (5 : ℚ) from by decide]; rfl)
    | (rw [show pyFloat (pyStrip (pyDrop "<5" 1)) = some (5 : ℚ) from by decide]; rfl)
    | (rw [show pyFloat (pyStrip (pyDrop ">5" 1)) = some (5 : ℚ) from by decide]; rfl)

/-- Claim C8 fails on the code: because the Python lambdas call `float` on
their operand only at application time, text that matches an operator prefix
but has a non-numeric operand (e.g. `<=abc`) *compiles successfully*, and the
returned predicate raises `ValueError` (`none`) at every mid-stream
application; text with trailing junk after a valid `X-Y` also compiles
(`re.match` is not end-anchored).  Only text matching no form at all
(`bogus`) fails at compile time. -/
theorem c8_lazy_operand_bug :
    (∃ p, parse_range_filter "<=abc" = some p ∧ p 5 = none ∧ p 0 = none) ∧
    (∃ q, parse_range_filter "1-2.0xyz" = some q ∧ q 1 = some true) ∧
    parse_range_filter "bogus" = none :=
  ⟨⟨_, rfl, by decide, by decide⟩, ⟨_, rfl, by decide⟩, rfl⟩

/-- The configuration of a run with only `--signal ">=10"` supplied. -/
def sigConfig : Config := ⟨none, none, none, none, none, none, none, some ">=10"⟩

/-- Claim C10 fails on the code: `main` stores the compiled signal-strength
filter under dict key `"signal"`, but `Record.match` has no parameter of that
name (it is `signal_strength`), so `rec.match(**filters)` raises `TypeError`
on every record instead of applying the filter — and `TypeError` is not caught
by the loop's `except ValueError`.  Bound under the correct name
`signal_strength`, the same compiled filter does apply to the record's signal
strength (the example record, 20 dB, passes `>=10`). -/
theorem c10_signal_kwarg_typeerror (r : Record) :
    recordMatchParams.contains "signal" = false ∧
    (∃ kw, buildFilters sigConfig = Except.ok kw ∧
      kw.map Prod.fst = ["de", "dx", "signal"] ∧
      Record.matchKw r kw = Except.error "TypeError") ∧
    Record.matchKw exampleRecord
      [("signal_strength",
        KwVal.krange [fun x => (pyFloat (pyStrip (pyDrop ">=10" 2))).map fun v => decide (v ≤ x)])]
      = Except.ok true := by
  refine ⟨by decide, ⟨_, rfl, rfl, rfl⟩, rfl⟩
